import Mathlib

/-!
Verification development for the h3sed hero-editor core: the worn-artifact
slot allocator and the army / worn-artifacts / inventory byte codecs,
shallowly embedded from `h3sed/plugins/hero/artifacts.py`, `army.py` and
`inventory.py`.  Byte buffers are total functions `Nat → Nat`; catalogs and
lookup tables (external collaborators in the original) are explicit
parameters.
-/

namespace H3sed

/-- Modelled from the spec: the blank sentinel byte (`metadata.Blank`),
a fixed configuration constant distinct from the zero sentinel. -/
def Blank : Nat := 255

/-- Modelled from the spec: the zero sentinel byte (`metadata.Null`). -/
def Null : Nat := 0

/-- Modelled from the spec: `util.itoby`, integer to little-endian bytes. -/
def itoby (v n : Nat) : List Nat :=
  (List.range n).map fun i => v / 256 ^ i % 256

/-- Modelled from the spec: `util.bytoi`, little-endian bytes to integer. -/
def bytoi (b : List Nat) : Nat :=
  b.foldr (fun x acc => x + 256 * acc) 0

/-- A hero byte region, as a total function from offset to byte value. -/
abbrev Buf := Nat → Nat

/-- Read `n` consecutive bytes starting at `pos`. -/
def readBytes (b : Buf) (pos n : Nat) : List Nat :=
  (List.range n).map fun i => b (pos + i)

/-- Overwrite the byte range starting at `pos` with the bytes `bs`. -/
def writeBytes (b : Buf) (pos : Nat) (bs : List Nat) : Buf :=
  fun i => if pos ≤ i ∧ i < pos + bs.length then bs.getD (i - pos) 0 else b i

/-! ## Slot allocator (ArtifactsPlugin UIPROPS and helpers)

Python dictionaries are modelled as insertion-ordered association lists,
matching `dict` key order and `defaultdict` semantics. -/

/-- One worn-artifact slot: its name and its slot category
(`prop.get("slot", prop["name"])` in the source). -/
structure SlotProp where
  name : String
  cat : String
deriving DecidableEq

/-- The 14 worn-artifact slots, in `UIPROPS` order. -/
def slotProps : List SlotProp :=
  [⟨"helm", "helm"⟩, ⟨"neck", "neck"⟩, ⟨"armor", "armor"⟩, ⟨"weapon", "weapon"⟩,
   ⟨"shield", "shield"⟩, ⟨"lefthand", "hand"⟩, ⟨"righthand", "hand"⟩,
   ⟨"cloak", "cloak"⟩, ⟨"feet", "feet"⟩, ⟨"side1", "side"⟩, ⟨"side2", "side"⟩,
   ⟨"side3", "side"⟩, ⟨"side4", "side"⟩, ⟨"side5", "side"⟩]

/-- Slot category of a slot name (`prop.get("slot", prop["name"])`). -/
def catOf (n : String) : String :=
  match slotProps.find? (fun p => p.name == n) with
  | some p => p.cat
  | none => n

/-- Worn-artifacts state: the `self._state` dictionary, slot name to
optional donned artifact name, as an insertion-ordered association list. -/
abbrev WornState := List (String × Option String)

/-- Dictionary read with default, `self._state.get(name)`. -/
def wGet (st : WornState) (k : String) : Option String :=
  match st with
  | [] => none
  | e :: rest => if e.1 = k then e.2 else wGet rest k

/-- Dictionary write, `self._state[name] = v`. -/
def wSet (st : WornState) (k : String) (v : Option String) : WornState :=
  match st with
  | [] => [(k, v)]
  | e :: rest => if e.1 = k then (e.1, v) :: rest else e :: wSet rest k v

/-- Read of a `defaultdict(int)` counter dictionary. -/
def alGet (d : List (String × Int)) (k : String) : Int :=
  match d with
  | [] => 0
  | e :: rest => if e.1 = k then e.2 else alGet rest k

/-- Add `delta` to key `k` of a `defaultdict(int)`: update the key in
place, or append it with the default 0 plus `delta`. -/
def alBump (d : List (String × Int)) (k : String) (delta : Int) : List (String × Int) :=
  match d with
  | [] => [(k, delta)]
  | e :: rest => if e.1 = k then (e.1, e.2 + delta) :: rest else e :: alBump rest k delta

/-- Read of the `defaultdict(list)` owners dictionary. -/
def alGetL (d : List (String × List String)) (k : String) : List String :=
  match d with
  | [] => []
  | e :: rest => if e.1 = k then e.2 else alGetL rest k

/-- Record `v` as an owner of category `k`, without duplicates
(`if v not in slots_owner[slot]: slots_owner[slot] += [v]`). -/
def alAddOwner (d : List (String × List String)) (k v : String) :
    List (String × List String) :=
  match d with
  | [] => [(k, [v])]
  | e :: rest =>
    if e.1 = k then (e.1, if v ∈ e.2 then e.2 else e.2 ++ [v]) :: rest
    else e :: alAddOwner rest k v

/-- Initial free counts: one per slot name, grouped by category. -/
def initFree : List (String × Int) :=
  slotProps.foldl (fun d p => alBump d p.cat 1) []

/-- Deduct one donned artifact `v`: decrement every category in its
occupied-category list and record it as owner. -/
def deductArtifact (SLOTS : String → List String)
    (acc : List (String × Int) × List (String × List String)) (v : String) :
    List (String × Int) × List (String × List String) :=
  (SLOTS v).foldl (fun a c => (alBump a.1 c (-1), alAddOwner a.2 c v)) acc

/-- One step of the donned-artifacts loop in `ArtifactsPlugin._slots`:
skip the excluded slot, skip empty slots, deduct donned artifacts. -/
def donStep (SLOTS : String → List String) (st : WornState) (excl : Option String)
    (acc : List (String × Int) × List (String × List String)) (p : SlotProp) :
    List (String × Int) × List (String × List String) :=
  if excl = some p.name then acc
  else
    match wGet st p.name with
    | none => acc
    | some v => deductArtifact SLOTS acc v

/-- Embedding of `ArtifactsPlugin._slots(prop, value)`: free counts per
category and owners per category, given an optional excluded slot and an
optional hypothetical artifact. -/
def slotsCompute (SLOTS : String → List String) (st : WornState)
    (excl : Option String) (value : Option String) :
    List (String × Int) × List (String × List String) :=
  let acc1 := slotProps.foldl (donStep SLOTS st excl) (initFree, [])
  let free2 := match excl with
    | none => acc1.1
    | some e => alBump acc1.1 (catOf e) (-1)
  let free3 := match value with
    | none => free2
    | some v => ((SLOTS v).drop 1).foldl (fun f c => alBump f c (-1)) free2
  (free3, acc1.2)

/-- Embedding of `slots_full = [k for k, v in slots_free.items() if v < 0]`. -/
def slotsFull (SLOTS : String → List String) (st : WornState)
    (excl : Option String) (value : Option String) : List String :=
  ((slotsCompute SLOTS st excl value).1.filter (fun e => e.2 < 0)).map Prod.fst

/-- Embedding of `ArtifactsPlugin.on_change`: returns whether the equip
succeeded and the resulting worn state. -/
def on_change (SLOTS : String → List String) (st : WornState)
    (slot : String) (value : Option String) : Bool × WornState :=
  if value = wGet st slot then (false, st)
  else if slotsFull SLOTS st (some slot) value = [] then
    (true, wSet st slot value)
  else (false, st)

/-- One step of pass 1 of `ArtifactsPlugin.load_state`. -/
def loadStep1 (validArt : String → String → Bool)
    (input : String → Option (Option String)) (s : WornState) (p : SlotProp) :
    WornState :=
  match input p.name with
  | none => s
  | some none => wSet s p.name none
  | some (some a) => if validArt p.cat a then wSet s p.name (some a) else s

/-- Pass 1 of `ArtifactsPlugin.load_state`: don every individually
name-valid artifact, with no capacity check.  `input p` is `none` when the
slot name is absent from the given data; `some none` models a falsy value. -/
def loadPass1 (validArt : String → String → Bool) (st : WornState)
    (input : String → Option (Option String)) : WornState :=
  slotProps.foldl (loadStep1 validArt input) st

/-- One step of pass 2 of `ArtifactsPlugin.load_state`. -/
def loadStep2 (SLOTS : String → List String) (s : WornState) (p : SlotProp) :
    WornState :=
  match wGet s p.name with
  | none => s
  | some v =>
    if slotsFull SLOTS s (some p.name) (some v) = [] then s
    else wSet s p.name none

/-- Pass 2 of `ArtifactsPlugin.load_state`: re-validate every non-empty
slot in order and clear it when any category free count is negative. -/
def loadPass2 (SLOTS : String → List String) (st : WornState) : WornState :=
  slotProps.foldl (loadStep2 SLOTS) st

/-- Embedding of `ArtifactsPlugin.load_state`: pass 1 then pass 2. -/
def load_state (SLOTS : String → List String) (validArt : String → String → Bool)
    (st : WornState) (input : String → Option (Option String)) : WornState :=
  loadPass2 SLOTS (loadPass1 validArt st input)


/-! ## Dictionary lemmas -/

theorem alGet_nil (c : String) : alGet [] c = 0 := rfl

theorem alGet_alBump (d : List (String × Int)) (k c : String) (delta : Int) :
    alGet (alBump d k delta) c = alGet d c + (if c = k then delta else 0) := by
  induction d with
  | nil =>
    by_cases h : c = k
    · subst h; simp [alBump, alGet]
    · have h2 : ¬(k = c) := fun hh => h hh.symm
      simp [alBump, alGet, h, h2]
  | cons e rest ih =>
    by_cases hek : e.1 = k
    · by_cases hec : e.1 = c
      · subst hek; subst hec; simp [alBump, alGet]
      · have h2 : ¬(c = k) := by
          rw [← hek]; exact fun hh => hec hh.symm
        subst hek; simp [alBump, alGet, hec, h2]
    · by_cases hec : e.1 = c
      · have h2 : ¬(c = k) := by
          rw [← hec]; exact hek
        subst hec; simp [alBump, alGet, hek, h2]
      · simp [alBump, alGet, hek, hec, ih]

theorem mem_alGetL_alAddOwner (d : List (String × List String)) (k v c a : String) :
    a ∈ alGetL (alAddOwner d k v) c ↔ a ∈ alGetL d c ∨ (c = k ∧ a = v) := by
  induction d with
  | nil =>
    by_cases h : c = k
    · subst h; simp [alAddOwner, alGetL]
    · have h2 : ¬(k = c) := fun hh => h hh.symm
      simp [alAddOwner, alGetL, h, h2]
  | cons e rest ih =>
    by_cases hek : e.1 = k
    · by_cases hec : e.1 = c
      · subst hek; subst hec
        by_cases hv : v ∈ e.2
        · simp only [alAddOwner, if_pos rfl, if_pos hv, alGetL]
          exact ⟨Or.inl, fun h => h.elim id (fun ha => ha.2 ▸ hv)⟩
        · simp only [alAddOwner, if_pos rfl, if_neg hv, alGetL]
          simp [List.mem_append]
      · have h2 : ¬(c = k) := by
          rw [← hek]; exact fun hh => hec hh.symm
        subst hek; simp [alAddOwner, alGetL, hec, h2]
    · by_cases hec : e.1 = c
      · have h2 : ¬(c = k) := by
          rw [← hec]; exact hek
        subst hec; simp [alAddOwner, alGetL, hek, h2]
      · simp [alAddOwner, alGetL, hek, hec, ih]

theorem wGet_wSet (st : WornState) (k : String) (v : Option String) (n : String) :
    wGet (wSet st k v) n = if n = k then v else wGet st n := by
  induction st with
  | nil =>
    by_cases h : n = k
    · subst h; simp [wSet, wGet]
    · have h2 : ¬(k = n) := fun hh => h hh.symm
      simp [wSet, wGet, h, h2]
  | cons e rest ih =>
    by_cases hek : e.1 = k
    · by_cases hen : e.1 = n
      · subst hek; subst hen; simp [wSet, wGet]
      · have h2 : ¬(n = k) := by
          rw [← hek]; exact fun hh => hen hh.symm
        subst hek; simp [wSet, wGet, hen, h2]
    · by_cases hen : e.1 = n
      · have h2 : ¬(n = k) := by
          rw [← hen]; exact hek
        subst hen; simp [wSet, wGet, hek, h2]
      · simp [wSet, wGet, hek, hen, ih]


/-- Keys of a counter dictionary after a bump: unchanged if present,
appended otherwise. -/
theorem alBump_keys (d : List (String × Int)) (k : String) (delta : Int) :
    (alBump d k delta).map Prod.fst
      = if k ∈ d.map Prod.fst then d.map Prod.fst else d.map Prod.fst ++ [k] := by
  induction d with
  | nil => simp [alBump]
  | cons e rest ih =>
    by_cases hek : e.1 = k
    · simp [alBump, hek]
    · have h2 : ¬(k = e.1) := fun hh => hek hh.symm
      by_cases hk : k ∈ rest.map Prod.fst <;> simp [alBump, hek, h2, hk, ih]

/-- Bumping preserves key uniqueness. -/
theorem alBump_nodupKeys (d : List (String × Int)) (k : String) (delta : Int)
    (h : (d.map Prod.fst).Nodup) : ((alBump d k delta).map Prod.fst).Nodup := by
  rw [alBump_keys]
  by_cases hk : k ∈ d.map Prod.fst
  · simpa [hk] using h
  · simp [hk, List.nodup_append, h]

/-- With unique keys, membership determines the lookup value. -/
theorem alGet_of_mem_nodup (d : List (String × Int)) (c : String) (x : Int)
    (hnd : (d.map Prod.fst).Nodup) (hmem : (c, x) ∈ d) : alGet d c = x := by
  induction d with
  | nil => simp at hmem
  | cons e rest ih =>
    rcases List.mem_cons.mp hmem with he | ht
    · subst he; simp [alGet]
    · have hc : c ∈ rest.map Prod.fst := List.mem_map.mpr ⟨(c, x), ht, rfl⟩
      have hne : ¬(e.1 = c) := by
        intro h
        exact (List.nodup_cons.mp (by simpa using hnd)).1 (h ▸ hc)
      simp only [alGet, if_neg hne]
      exact ih (List.nodup_cons.mp (by simpa using hnd)).2 ht

/-- Every lookup result is zero or the value of some entry. -/
theorem alGet_mem_or_zero (d : List (String × Int)) (c : String) :
    alGet d c = 0 ∨ (c, alGet d c) ∈ d := by
  induction d with
  | nil => simp [alGet]
  | cons e rest ih =>
    by_cases he : e.1 = c
    · right; simp [alGet, he]
      left; exact Prod.ext he.symm rfl
    · rcases ih with h | h
      · left; simpa [alGet, he] using h
      · right; simp [alGet, he]
        right; exact h


/-! ## Free-count fold lemmas -/

theorem alGet_foldl_alBump_one (l : List SlotProp) (d : List (String × Int)) (c : String) :
    alGet (l.foldl (fun d p => alBump d p.cat 1) d) c
      = alGet d c + ((l.map SlotProp.cat).count c : Int) := by
  induction l generalizing d with
  | nil => simp
  | cons p rest ih =>
    rw [List.foldl_cons, ih, alGet_alBump]
    by_cases h : c = p.cat
    · have h2 : (p.cat == c) = true := by simp [h.symm]
      simp [List.count_cons, h, h2]
      omega
    · have h2 : ¬(p.cat == c) = true := by simp; exact fun hh => h hh.symm
      simp [List.count_cons, h, h2]

theorem alGet_foldl_alBump_negOne (l : List String) (d : List (String × Int)) (c : String) :
    alGet (l.foldl (fun f c2 => alBump f c2 (-1)) d) c = alGet d c - (l.count c : Int) := by
  induction l generalizing d with
  | nil => simp
  | cons x rest ih =>
    rw [List.foldl_cons, ih, alGet_alBump]
    by_cases h : c = x
    · have h2 : (x == c) = true := by simp [h.symm]
      simp [List.count_cons, h, h2]
      omega
    · have h2 : ¬(x == c) = true := by simp; exact fun hh => h hh.symm
      simp [List.count_cons, h, h2]

theorem alGet_deductArtifact (SLOTS : String → List String) (v : String)
    (acc : List (String × Int) × List (String × List String)) (c : String) :
    alGet (deductArtifact SLOTS acc v).1 c = alGet acc.1 c - (((SLOTS v)).count c : Int) := by
  unfold deductArtifact
  generalize (SLOTS v) = l
  induction l generalizing acc with
  | nil => simp
  | cons x rest ih =>
    rw [List.foldl_cons, ih]
    simp only [alGet_alBump]
    by_cases h : c = x
    · have h2 : (x == c) = true := by simp [h.symm]
      simp [List.count_cons, h, h2]
      omega
    · have h2 : ¬(x == c) = true := by simp; exact fun hh => h hh.symm
      simp [List.count_cons, h, h2]

theorem alGet_initFree (c : String) :
    alGet initFree c = ((slotProps.map SlotProp.cat).count c : Int) := by
  have h := alGet_foldl_alBump_one slotProps [] c
  simpa [initFree, alGet] using h

/-- Capacity consumed by the donned artifacts outside the excluded slot,
per category: the spec-side closed form of the deduction loop. -/
def donnedCount (SLOTS : String → List String) (st : WornState) (excl : Option String) :
    List SlotProp → String → Int
  | [], _ => 0
  | p :: l, c =>
    (if excl = some p.name then 0
     else match wGet st p.name with
       | none => 0
       | some v => ((SLOTS v).count c : Int)) + donnedCount SLOTS st excl l c

theorem alGet_donFold (SLOTS : String → List String) (st : WornState)
    (excl : Option String) (l : List SlotProp)
    (acc : List (String × Int) × List (String × List String)) (c : String) :
    alGet ((l.foldl (donStep SLOTS st excl) acc).1) c
      = alGet acc.1 c - donnedCount SLOTS st excl l c := by
  induction l generalizing acc with
  | nil => simp [donnedCount]
  | cons p rest ih =>
    rw [List.foldl_cons, ih, donnedCount]
    by_cases he : excl = some p.name
    · simp only [donStep, if_pos he, if_pos rfl]
      omega
    · cases hw : wGet st p.name with
      | none =>
        simp only [donStep, if_neg he, hw]
        omega
      | some v =>
        simp only [donStep, if_neg he, hw, alGet_deductArtifact]
        omega


/-! ## Owners fold lemmas -/

theorem mem_deductArtifact_owners (SLOTS : String → List String) (v : String)
    (acc : List (String × Int) × List (String × List String)) (c a : String) :
    a ∈ alGetL (deductArtifact SLOTS acc v).2 c
      ↔ a ∈ alGetL acc.2 c ∨ (a = v ∧ c ∈ SLOTS v) := by
  unfold deductArtifact
  generalize (SLOTS v) = l
  induction l generalizing acc with
  | nil => simp
  | cons x rest ih =>
    rw [List.foldl_cons, ih]
    simp only [mem_alGetL_alAddOwner, List.mem_cons]
    constructor
    · rintro ((h | ⟨hcx, hav⟩) | ⟨hav, hcr⟩)
      · exact Or.inl h
      · exact Or.inr ⟨hav, Or.inl hcx⟩
      · exact Or.inr ⟨hav, Or.inr hcr⟩
    · rintro (h | ⟨hav, hcx | hcr⟩)
      · exact Or.inl (Or.inl h)
      · exact Or.inl (Or.inr ⟨hcx, hav⟩)
      · exact Or.inr ⟨hav, hcr⟩

theorem mem_donFold_owners (SLOTS : String → List String) (st : WornState)
    (excl : Option String) (l : List SlotProp)
    (acc : List (String × Int) × List (String × List String)) (c a : String) :
    a ∈ alGetL ((l.foldl (donStep SLOTS st excl) acc).2) c
      ↔ a ∈ alGetL acc.2 c
        ∨ ∃ p ∈ l, ¬excl = some p.name ∧ wGet st p.name = some a ∧ c ∈ SLOTS a := by
  induction l generalizing acc with
  | nil => simp
  | cons p rest ih =>
    rw [List.foldl_cons, ih]
    by_cases he : excl = some p.name
    · simp only [donStep, if_pos he, List.mem_cons]
      constructor
      · rintro (h | h)
        · exact Or.inl h
        · exact Or.inr (by rcases h with ⟨q, hq, h1, h2⟩; exact ⟨q, Or.inr hq, h1, h2⟩)
      · rintro (h | ⟨q, hq | hq, h1, h2⟩)
        · exact Or.inl h
        · exact absurd (hq ▸ he) h1
        · exact Or.inr ⟨q, hq, h1, h2⟩
    · cases hw : wGet st p.name with
      | none =>
        simp only [donStep, if_neg he, hw, List.mem_cons]
        constructor
        · rintro (h | h)
          · exact Or.inl h
          · exact Or.inr (by rcases h with ⟨q, hq, h1, h2⟩; exact ⟨q, Or.inr hq, h1, h2⟩)
        · rintro (h | ⟨q, hq | hq, h1, h2⟩)
          · exact Or.inl h
          · subst hq; rw [hw] at h2; exact absurd h2.1 (by simp)
          · exact Or.inr ⟨q, hq, h1, h2⟩
      | some v =>
        simp only [donStep, if_neg he, hw, mem_deductArtifact_owners, List.mem_cons]
        constructor
        · rintro ((h | ⟨hav, hcs⟩) | h)
          · exact Or.inl h
          · exact Or.inr ⟨p, Or.inl rfl, he, by rw [hw, hav], by rw [hav]; exact hcs⟩
          · exact Or.inr (by rcases h with ⟨q, hq, h1, h2⟩; exact ⟨q, Or.inr hq, h1, h2⟩)
        · rintro (h | ⟨q, hq | hq, h1, h2, h3⟩)
          · exact Or.inl (Or.inl h)
          · subst hq
            have hva : v = a := by
              have := hw.symm.trans h2
              injection this
            exact Or.inl (Or.inr ⟨hva.symm, hva ▸ h3⟩)
          · exact Or.inr ⟨q, hq, h1, h2, h3⟩


/-! ## Key uniqueness of the computed free counts -/

theorem foldl_alBump_nodupKeys (l : List String) (d : List (String × Int))
    (h : (d.map Prod.fst).Nodup) :
    (((l.foldl (fun f c2 => alBump f c2 (-1)) d)).map Prod.fst).Nodup := by
  induction l generalizing d with
  | nil => exact h
  | cons x rest ih => exact ih _ (alBump_nodupKeys _ _ _ h)

theorem deductArtifact_nodupKeys (SLOTS : String → List String) (v : String)
    (acc : List (String × Int) × List (String × List String))
    (h : (acc.1.map Prod.fst).Nodup) :
    ((deductArtifact SLOTS acc v).1.map Prod.fst).Nodup := by
  unfold deductArtifact
  generalize (SLOTS v) = l
  induction l generalizing acc with
  | nil => exact h
  | cons x rest ih => exact ih _ (alBump_nodupKeys _ _ _ h)

theorem donFold_nodupKeys (SLOTS : String → List String) (st : WornState)
    (excl : Option String) (l : List SlotProp)
    (acc : List (String × Int) × List (String × List String))
    (h : (acc.1.map Prod.fst).Nodup) :
    (((l.foldl (donStep SLOTS st excl) acc).1).map Prod.fst).Nodup := by
  induction l generalizing acc with
  | nil => exact h
  | cons p rest ih =>
    refine ih _ ?_
    unfold donStep
    by_cases he : excl = some p.name
    · simpa [he] using h
    · cases hw : wGet st p.name with
      | none => simpa [he, hw] using h
      | some v => simpa [he, hw] using deductArtifact_nodupKeys SLOTS v acc h

theorem initFree_nodupKeys : (initFree.map Prod.fst).Nodup := by decide

theorem slotsCompute_nodupKeys (SLOTS : String → List String) (st : WornState)
    (excl : Option String) (value : Option String) :
    (((slotsCompute SLOTS st excl value).1).map Prod.fst).Nodup := by
  have h1 : (((slotProps.foldl (donStep SLOTS st excl)
      (initFree, ([] : List (String × List String)))).1).map Prod.fst).Nodup :=
    donFold_nodupKeys SLOTS st excl slotProps _ initFree_nodupKeys
  cases excl with
  | none =>
    cases value with
    | none => simpa [slotsCompute] using h1
    | some v => simpa [slotsCompute] using foldl_alBump_nodupKeys _ _ h1
  | some e =>
    cases value with
    | none => simpa [slotsCompute] using alBump_nodupKeys _ _ _ h1
    | some v =>
      simpa [slotsCompute] using foldl_alBump_nodupKeys _ _ (alBump_nodupKeys _ _ _ h1)

/-- Emptiness of `slots_full` is exactly nonnegativity of every computed
free count. -/
theorem slotsFull_nil_iff (SLOTS : String → List String) (st : WornState)
    (excl : Option String) (value : Option String) :
    slotsFull SLOTS st excl value = []
      ↔ ∀ c, 0 ≤ alGet (slotsCompute SLOTS st excl value).1 c := by
  unfold slotsFull
  rw [List.map_eq_nil_iff, List.filter_eq_nil_iff]
  constructor
  · intro h c
    rcases alGet_mem_or_zero (slotsCompute SLOTS st excl value).1 c with h0 | hm
    · omega
    · have := h _ hm
      simp only [decide_eq_true_eq] at this
      omega
  · intro h e he
    have hval : alGet (slotsCompute SLOTS st excl value).1 e.1 = e.2 :=
      alGet_of_mem_nodup _ _ _ (slotsCompute_nodupKeys SLOTS st excl value)
        (by simpa using he)
    have h2 := h e.1
    simp only [decide_eq_true_eq]
    omega

/-! ## Claims C1 and C2 -/

/-- Spec-side closed form of `computeSlotState` (spec 4.2): total category
capacity, minus consumption by donned artifacts outside the excluded slot,
minus one for the excluded slot category, minus the hypothetical artifact
tail. -/
def freeSpec (SLOTS : String → List String) (st : WornState)
    (excl : Option String) (value : Option String) (c : String) : Int :=
  ((slotProps.map SlotProp.cat).count c : Int)
  - donnedCount SLOTS st excl slotProps c
  - (match excl with
     | none => 0
     | some e => if c = catOf e then 1 else 0)
  - (match value with
     | none => 0
     | some v => (((SLOTS v).drop 1).count c : Int))

/-- Claim C2: the slot-state computation returns per category the slot-name
count minus per-occurrence consumption of donned artifacts outside the
excluded slot, minus one for the excluded slot category, minus the
hypothetical artifact tail; and the owners mapping holds exactly the names
of the counted donned artifacts per occupied category. -/
theorem claimC2_slot_state (SLOTS : String → List String) (st : WornState)
    (excl : Option String) (value : Option String) :
    (∀ c, alGet (slotsCompute SLOTS st excl value).1 c = freeSpec SLOTS st excl value c)
    ∧ (∀ c a, a ∈ alGetL (slotsCompute SLOTS st excl value).2 c
        ↔ ∃ p ∈ slotProps, ¬excl = some p.name ∧ wGet st p.name = some a ∧ c ∈ SLOTS a) := by
  constructor
  · intro c
    have hacc : alGet (slotProps.foldl (donStep SLOTS st excl)
        (initFree, ([] : List (String × List String)))).1 c
        = ((slotProps.map SlotProp.cat).count c : Int)
          - donnedCount SLOTS st excl slotProps c := by
      rw [alGet_donFold]
      simp [alGet_initFree]
    cases excl with
    | none =>
      cases value with
      | none =>
        simp only [slotsCompute, freeSpec, hacc]
        omega
      | some v =>
        simp only [slotsCompute, freeSpec, alGet_foldl_alBump_negOne, hacc]
        omega
    | some e =>
      cases value with
      | none =>
        simp only [slotsCompute, freeSpec, alGet_alBump, hacc]
        by_cases hce : c = catOf e <;> first | (simp [hce]; omega) | simp [hce]
      | some v =>
        simp only [slotsCompute, freeSpec, alGet_foldl_alBump_negOne, alGet_alBump, hacc]
        by_cases hce : c = catOf e <;> first | (simp [hce]; omega) | simp [hce]
  · intro c a
    have h := mem_donFold_owners SLOTS st excl slotProps
      (initFree, ([] : List (String × List String))) c a
    simp only [alGetL] at h
    simpa [slotsCompute] using h

/-- Claim C1: with a genuine proposed change, equip validation rejects iff
some category free count would go negative, and a rejected equip leaves the
worn state untouched. -/
theorem claimC1_equip_all_or_nothing (SLOTS : String → List String) (st : WornState)
    (slot : String) (value : Option String) (hchange : ¬value = wGet st slot) :
    ((on_change SLOTS st slot value).1 = false
      ↔ ∃ c, alGet (slotsCompute SLOTS st (some slot) value).1 c < 0)
    ∧ ((on_change SLOTS st slot value).1 = false
      → (on_change SLOTS st slot value).2 = st) := by
  unfold on_change
  rw [if_neg hchange]
  by_cases hf : slotsFull SLOTS st (some slot) value = []
  · rw [if_pos hf]
    have h := (slotsFull_nil_iff SLOTS st (some slot) value).mp hf
    refine ⟨⟨fun hb => by simp at hb, fun hc => ?_⟩, fun hb => by simp at hb⟩
    rcases hc with ⟨c, hc⟩
    exact absurd (h c) (by omega)
  · rw [if_neg hf]
    have h : ¬∀ c, 0 ≤ alGet (slotsCompute SLOTS st (some slot) value).1 c :=
      fun hh => hf ((slotsFull_nil_iff SLOTS st (some slot) value).mpr hh)
    push_neg at h
    refine ⟨?_, fun _ => rfl⟩
    simp only [eq_self_iff_true, true_iff]
    rcases h with ⟨c, hc⟩
    exact ⟨c, by omega⟩

/-- Witness for claim C1 at a concrete input. -/
theorem claimC1_equip_all_or_nothing_witness :
    ¬(some "A") = wGet ([] : WornState) "helm"
    ∧ (((on_change (fun _ => []) ([] : WornState) "helm" (some "A")).1 = false
        ↔ ∃ c, alGet (slotsCompute (fun _ => []) ([] : WornState)
            (some "helm") (some "A")).1 c < 0)
      ∧ ((on_change (fun _ => []) ([] : WornState) "helm" (some "A")).1 = false
        → (on_change (fun _ => []) ([] : WornState) "helm" (some "A")).2 = [])) :=
  ⟨by decide,
   claimC1_equip_all_or_nothing (fun _ => []) [] "helm" (some "A") (by decide)⟩


/-! ## Claims C3 and C4: concrete allocator scenarios -/

/-- Example slot catalog: combination artifact C occupies two side slots,
singles S1 to S4 occupy one side slot each. -/
def comboCatalog : String → List String := fun a =>
  if a = "C" then ["side", "side"]
  else if a = "S1" ∨ a = "S2" ∨ a = "S3" ∨ a = "S4" then ["side"] else []

/-- Worn state with four of the five side slots occupied by singles. -/
def sideState4 : WornState :=
  [("helm", none), ("neck", none), ("armor", none), ("weapon", none), ("shield", none),
   ("lefthand", none), ("righthand", none), ("cloak", none), ("feet", none),
   ("side1", some "S1"), ("side2", some "S2"), ("side3", some "S3"),
   ("side4", some "S4"), ("side5", none)]

/-- Worn state with three of the five side slots occupied by singles. -/
def sideState3 : WornState :=
  [("helm", none), ("neck", none), ("armor", none), ("weapon", none), ("shield", none),
   ("lefthand", none), ("righthand", none), ("cloak", none), ("feet", none),
   ("side1", some "S1"), ("side2", some "S2"), ("side3", some "S3"),
   ("side4", none), ("side5", none)]

/-- Counterexample to claim C3: after the accepted equip of the
combination artifact with three side slots previously occupied, the
computed free count for category side is 0, not 1 as claimed. -/
theorem claimC3_counterexample :
    ¬alGet (slotsCompute comboCatalog
        ((on_change comboCatalog sideState3 "side5" (some "C")).2) none none).1 "side" = 1 := by
  decide

/-- Claim C3 as amended: equipping the two-side combination artifact with
four side slots occupied is rejected with conflict category side; with
three occupied it is accepted, and afterwards the computed free count for
category side is exactly 0 (three singles plus one primary plus one
reserved slot consume all five). -/
theorem claimC3_amended :
    on_change comboCatalog sideState4 "side5" (some "C") = (false, sideState4)
    ∧ slotsFull comboCatalog sideState4 (some "side5") (some "C") = ["side"]
    ∧ (on_change comboCatalog sideState3 "side5" (some "C")).1 = true
    ∧ alGet (slotsCompute comboCatalog
        ((on_change comboCatalog sideState3 "side5" (some "C")).2) none none).1 "side" = 0 := by
  refine ⟨by decide, by decide, by decide, by decide⟩

/-- Example slot catalog for the bulk-restore scenario: B is a combination
artifact whose second required category (side) is fully consumed by the
five restored singles S1 to S5; A is a plain helm artifact. -/
def restoreCatalog : String → List String := fun a =>
  if a = "B" then ["neck", "side"]
  else if a = "A" then ["helm"]
  else if a = "S1" ∨ a = "S2" ∨ a = "S3" ∨ a = "S4" ∨ a = "S5" then ["side"] else []

/-- Name validity per slot category for the bulk-restore scenario. -/
def restoreValid : String → String → Bool := fun cat a =>
  (a == "A" && cat == "helm") || (a == "B" && cat == "neck")
  || ((a == "S1" || a == "S2" || a == "S3" || a == "S4" || a == "S5") && cat == "side")

/-- Restored state: helm holds A, neck holds B, all five side slots hold
singles. -/
def restoreInput : String → Option (Option String) := fun n =>
  if n = "helm" then some (some "A") else if n = "neck" then some (some "B")
  else if n = "side1" then some (some "S1") else if n = "side2" then some (some "S2")
  else if n = "side3" then some (some "S3") else if n = "side4" then some (some "S4")
  else if n = "side5" then some (some "S5") else none

/-- The empty worn state over the 14 slots. -/
def emptyWorn : WornState :=
  [("helm", none), ("neck", none), ("armor", none), ("weapon", none), ("shield", none),
   ("lefthand", none), ("righthand", none), ("cloak", none), ("feet", none),
   ("side1", none), ("side2", none), ("side3", none), ("side4", none), ("side5", none)]

/-- Counterexample to claim C4: in the bulk-restore example the helm slot
does not remain A; pass 2 clears it, because while the over-subscribed
combination artifact B is still donned, every visited occupied slot sees a
negative side count. -/
theorem claimC4_counterexample :
    ¬wGet (load_state restoreCatalog restoreValid emptyWorn restoreInput) "helm"
      = some "A" := by
  decide

theorem loadPass2_fold_clears (SLOTS : String → List String) (st : WornState)
    (l : List SlotProp) (acc : WornState)
    (h : ∀ n, wGet acc n = wGet st n ∨ wGet acc n = none) :
    ∀ n, wGet (l.foldl (loadStep2 SLOTS) acc) n = wGet st n
      ∨ wGet (l.foldl (loadStep2 SLOTS) acc) n = none := by
  induction l generalizing acc with
  | nil => exact h
  | cons p rest ih =>
    refine ih _ ?_
    intro n
    unfold loadStep2
    cases hw : wGet acc p.name with
    | none => exact h n
    | some v =>
      by_cases hf : slotsFull SLOTS acc (some p.name) (some v) = []
      · simp only [if_pos hf]
        exact h n
      · simp only [if_neg hf, wGet_wSet]
        by_cases hn : n = p.name
        · simp [hn]
        · simp only [if_neg hn]
          exact h n

/-- Claim C4 as amended: bulk restore dons every name-valid artifact in
pass 1 and pass 2 only ever clears slots; in the example, pass 2 clears
both the helm slot (visited first, while B keeps the side count negative)
and the neck slot holding B itself, and the side singles survive. -/
theorem claimC4_amended :
    (∀ (SLOTS : String → List String) (validArt : String → String → Bool)
        (st : WornState) (input : String → Option (Option String)) (n : String),
      wGet (load_state SLOTS validArt st input) n
          = wGet (loadPass1 validArt st input) n
        ∨ wGet (load_state SLOTS validArt st input) n = none)
    ∧ wGet (load_state restoreCatalog restoreValid emptyWorn restoreInput) "helm" = none
    ∧ wGet (load_state restoreCatalog restoreValid emptyWorn restoreInput) "neck" = none
    ∧ wGet (load_state restoreCatalog restoreValid emptyWorn restoreInput) "side1" = some "S1"
    ∧ wGet (load_state restoreCatalog restoreValid emptyWorn restoreInput) "side2" = some "S2"
    ∧ wGet (load_state restoreCatalog restoreValid emptyWorn restoreInput) "side3" = some "S3"
    ∧ wGet (load_state restoreCatalog restoreValid emptyWorn restoreInput) "side4" = some "S4"
    ∧ wGet (load_state restoreCatalog restoreValid emptyWorn restoreInput) "side5" = some "S5" := by
  refine ⟨?_, by decide, by decide, by decide, by decide, by decide, by decide, by decide⟩
  intro SLOTS validArt st input n
  exact loadPass2_fold_clears SLOTS (loadPass1 validArt st input) slotProps
    (loadPass1 validArt st input) (fun _ => Or.inl rfl) n


/-! ## Byte positions

Modelled from the spec: the external PositionTable supplies fixed byte
offsets per field; a representative layout with the required shapes
(7 plus 7 army 4-byte fields, 14 worn 8-byte slots, a contiguous
reserved-counter region of one byte per slot category, 64 inventory
8-byte slots). -/

/-- Modelled from the spec: offset of the army creature type ids. -/
def armyTypesPos : Nat := 0

/-- Modelled from the spec: offset of the army creature counts. -/
def armyCountsPos : Nat := 28

/-- Modelled from the spec: offset of worn slot `k`, in `slotProps` order. -/
def artifactSlotPos (k : Nat) : Nat := 100 + 8 * k

/-- Modelled from the spec: base of the reserved-counter byte region. -/
def reservedBasePos : Nat := 220

/-- The slot categories having a reserved-capacity counter byte. -/
def reservedCats : List String :=
  ["helm", "neck", "armor", "weapon", "shield", "hand", "cloak", "feet", "side"]

/-- Index of a category inside the reserved-counter region. -/
def reservedIdx : String → Nat
  | "helm" => 0
  | "neck" => 1
  | "armor" => 2
  | "weapon" => 3
  | "shield" => 4
  | "hand" => 5
  | "cloak" => 6
  | "feet" => 7
  | "side" => 8
  | _ => 9

/-- Modelled from the spec: offset of the reserved counter of category `c`. -/
def reservedPos (c : String) : Nat := reservedBasePos + reservedIdx c

/-- Modelled from the spec: offset of the inventory slots. -/
def inventoryPos : Nat := 300

/-! ## ArmyCodec (ArmyPlugin.parse / ArmyPlugin.serialize) -/

/-- One army slot logical state, a dictionary with optional name and count. -/
structure ArmySlot where
  name : Option String
  count : Option Nat
deriving DecidableEq

/-- Python truthiness of an optional creature name. -/
def nameTruthy : Option String → Bool
  | none => false
  | some s => !(s == "")

/-- Python truthiness of an optional count. -/
def countTruthy : Option Nat → Bool
  | none => false
  | some c => !(c == 0)

/-- Embedding of `ArmyPlugin.parse` for slot `i`: read the 4-byte type id
and 4-byte count; a zero id, zero count or unresolvable id yields the
empty slot. -/
def armyParse (NAMES : Nat → Option String) (bytes : Buf) (i : Nat) : ArmySlot :=
  let unit := bytoi (readBytes bytes (armyTypesPos + 4 * i) 4)
  let count := bytoi (readBytes bytes (armyCountsPos + 4 * i) 4)
  if unit = 0 ∨ count = 0 ∨ nameTruthy (NAMES unit) = false then ⟨none, none⟩
  else ⟨NAMES unit, some count⟩

/-- The pair of 4-byte fields `ArmyPlugin.serialize` writes for slot `i`:
original bytes when empty now and at load, id and count when resolvable
and truthy, else blank-sentinel type and zero-sentinel count. -/
def armySlotBytes (IDS : String → Option Nat) (state state0 : Nat → ArmySlot)
    (bytes0 : Buf) (i : Nat) : List Nat × List Nat :=
  if (nameTruthy (state i).name = false ∨ countTruthy (state i).count = false)
      ∧ nameTruthy (state0 i).name = false then
    (readBytes bytes0 (armyTypesPos + 4 * i) 4,
     readBytes bytes0 (armyCountsPos + 4 * i) 4)
  else if countTruthy (state i).count = true
      ∧ (((state i).name).bind IDS).isSome = true then
    (itoby ((((state i).name).bind IDS).getD 0) 4, itoby (((state i).count).getD 0) 4)
  else (List.replicate 4 Blank, List.replicate 4 Null)

/-- One step of the `ArmyPlugin.serialize` loop over the 7 slots. -/
def armyStep (IDS : String → Option Nat) (state state0 : Nat → ArmySlot)
    (bytes0 : Buf) (res : Buf) (i : Nat) : Buf :=
  writeBytes
    (writeBytes res (armyTypesPos + 4 * i) (armySlotBytes IDS state state0 bytes0 i).1)
    (armyCountsPos + 4 * i) (armySlotBytes IDS state state0 bytes0 i).2

/-- Embedding of `ArmyPlugin.serialize`. -/
def armySerialize (IDS : String → Option Nat) (state state0 : Nat → ArmySlot)
    (bytes bytes0 : Buf) : Buf :=
  (List.range 7).foldl (armyStep IDS state state0 bytes0) bytes

/-! ## ArtifactCodec (ArtifactsPlugin.parse / ArtifactsPlugin.serialize) -/

/-- Slot prop at index `k` of `slotProps`. -/
def slotAt (k : Nat) : SlotProp := slotProps.getD k ⟨"", ""⟩

/-- Embedding of the `parse_item` helper shared by `ArtifactsPlugin.parse`
and `InventoryPlugin.parse`: 4 blank bytes mean empty; the Spell Scroll id
switches to the 8-byte wide identity; otherwise the 4-byte id stands. -/
def parseItem (scrollId : Nat) (bytes : Buf) (pos : Nat) : Option Nat :=
  if (readBytes bytes pos 4).all (fun x => x == Blank) then none
  else if bytoi (readBytes bytes pos 4) = scrollId then some (bytoi (readBytes bytes pos 8))
  else some (bytoi (readBytes bytes pos 4))

/-- Embedding of `ArtifactsPlugin.parse`: each slot identity resolved
through the artifact catalog; unresolvable identities decode to empty. -/
def artifactsParse (aNAMES : Nat → Option String) (scrollId : Nat) (bytes : Buf) :
    WornState :=
  (List.range 14).map (fun k =>
    ((slotAt k).name, (parseItem scrollId bytes (artifactSlotPos k)).bind aNAMES))

/-- The 8 bytes `ArtifactsPlugin.serialize` writes for slot index `k`:
all blank when empty or unresolvable, else the 4-byte id plus 4 blank
bytes (the narrow form, also for Spell Scroll). -/
def artSlotBytes (aIDS : String → Option Nat) (st : WornState) (k : Nat) : List Nat :=
  match (wGet st (slotAt k).name).bind aIDS with
  | none => List.replicate 8 Blank
  | some v => itoby v 4 ++ List.replicate 4 Blank

/-- Reserved categories consumed beyond the primary slot by the artifact
donned at slot index `k` (`SLOTS.get(name, [])[1:]`). -/
def artTail (SLOTS : String → List String) (st : WornState) (k : Nat) : List String :=
  match wGet st (slotAt k).name with
  | none => []
  | some n => (SLOTS n).drop 1

/-- Increment the reserved-counter byte of each category in `cats`. -/
def incReserved (res : Buf) (cats : List String) : Buf :=
  cats.foldl (fun r c => fun i => if i = reservedPos c then r i + 1 else r i) res

/-- One step of the `ArtifactsPlugin.serialize` loop: write the slot bytes,
then bump the reserved counters of the donned artifact tail. -/
def artStep (SLOTS : String → List String) (aIDS : String → Option Nat)
    (st : WornState) (res : Buf) (k : Nat) : Buf :=
  incReserved (writeBytes res (artifactSlotPos k) (artSlotBytes aIDS st k))
    (artTail SLOTS st k)

/-- Embedding of `ArtifactsPlugin.serialize`: zero the reserved-counter
region, then write all 14 slots, bumping reserved counters as donned
combination artifacts are encountered. -/
def artifactsSerialize (SLOTS : String → List String) (aIDS : String → Option Nat)
    (st : WornState) (bytes : Buf) : Buf :=
  (List.range 14).foldl (artStep SLOTS aIDS st)
    (writeBytes bytes reservedBasePos (List.replicate 9 0))

/-! ## InventoryCodec (InventoryPlugin.parse / InventoryPlugin.serialize) -/

/-- Embedding of `InventoryPlugin.parse` for slot `i`. -/
def inventoryParse (aNAMES : Nat → Option String) (scrollId : Nat) (bytes : Buf)
    (i : Nat) : Option String :=
  (parseItem scrollId bytes (inventoryPos + 8 * i)).bind aNAMES

/-- The 8 bytes `InventoryPlugin.serialize` writes for slot `i`: the wide
identity for scroll artifacts, id plus blank tail for other resolvable
names, the original bytes for slots empty now and at load, and blank id
plus zero count for newly cleared slots. -/
def invSlotBytes (IDS : String → Option Nat) (scrolls : List String)
    (state state0 : Nat → Option String) (bytes0 : Buf) (i : Nat) : List Nat :=
  if (match state i with
      | some n => scrolls.contains n
      | none => false) = true then itoby (((state i).bind IDS).getD 0) 8
  else if ¬((state i).bind IDS).getD 0 = 0 then
    itoby (((state i).bind IDS).getD 0) 4 ++ List.replicate 4 Blank
  else if state0 i = none then readBytes bytes0 (inventoryPos + 8 * i) 8
  else List.replicate 4 Blank ++ List.replicate 4 Null

/-- Embedding of `InventoryPlugin.serialize`. -/
def inventorySerialize (IDS : String → Option Nat) (scrolls : List String)
    (state state0 : Nat → Option String) (bytes bytes0 : Buf) : Buf :=
  (List.range 64).foldl (fun res i =>
    writeBytes res (inventoryPos + 8 * i) (invSlotBytes IDS scrolls state state0 bytes0 i))
    bytes


/-! ## Byte buffer lemmas -/

theorem readBytes_length (b : Buf) (pos n : Nat) : (readBytes b pos n).length = n := by
  simp [readBytes]

theorem itoby_length (v n : Nat) : (itoby v n).length = n := by
  simp [itoby]

theorem writeBytes_out (b : Buf) (pos : Nat) (bs : List Nat) (i : Nat)
    (h : i < pos ∨ pos + bs.length ≤ i) : writeBytes b pos bs i = b i := by
  unfold writeBytes
  rw [if_neg]
  omega

theorem writeBytes_in (b : Buf) (pos : Nat) (bs : List Nat) (i : Nat)
    (h1 : pos ≤ i) (h2 : i < pos + bs.length) :
    writeBytes b pos bs i = bs.getD (i - pos) 0 := by
  unfold writeBytes
  rw [if_pos ⟨h1, h2⟩]

theorem map_range_getD (l : List Nat) :
    (List.range l.length).map (fun j => l.getD j 0) = l := by
  apply List.ext_getElem
  · simp
  intro i h1 h2
  simp only [List.getElem_map, List.getElem_range]
  exact List.getD_eq_getElem l 0 h2

theorem readBytes_eq_of_pointwise (b : Buf) (pos n : Nat) (l : List Nat)
    (hl : l.length = n) (h : ∀ j, j < n → b (pos + j) = l.getD j 0) :
    readBytes b pos n = l := by
  have hn : n = l.length := hl.symm
  subst hn
  unfold readBytes
  conv_rhs => rw [← map_range_getD l]
  apply List.map_congr_left
  intro i hi
  exact h i (List.mem_range.mp hi)

theorem readBytes_getD (b : Buf) (pos n j : Nat) (hj : j < n) :
    (readBytes b pos n).getD j 0 = b (pos + j) := by
  unfold readBytes
  rw [List.getD_eq_getElem?_getD, List.getElem?_map, List.getElem?_range hj]
  rfl

/-! ## Integer and byte conversions -/

theorem bytoi_nil : bytoi [] = 0 := rfl

theorem bytoi_cons (x : Nat) (t : List Nat) : bytoi (x :: t) = x + 256 * bytoi t := rfl

theorem itoby_succ (v n : Nat) : itoby v (n + 1) = v % 256 :: itoby (v / 256) n := by
  unfold itoby
  rw [List.range_succ_eq_map, List.map_cons, List.map_map]
  congr 1
  · simp
  · apply List.map_congr_left
    intro i _
    simp only [Function.comp_apply]
    rw [pow_succ, mul_comm, ← Nat.div_div_eq_div_mul]

theorem itoby_bytoi (b : List Nat) (hb : ∀ x ∈ b, x < 256) :
    itoby (bytoi b) b.length = b := by
  induction b with
  | nil => rfl
  | cons x t ih =>
    rw [List.length_cons, itoby_succ, bytoi_cons]
    have hx : x < 256 := hb x (by simp)
    congr 1
    · omega
    · have hd : (x + 256 * bytoi t) / 256 = bytoi t := by omega
      rw [hd]
      exact ih (fun y hy => hb y (by simp [hy]))

theorem bytoi_itoby (v n : Nat) : bytoi (itoby v n) = v % 256 ^ n := by
  induction n generalizing v with
  | zero => simp [itoby, bytoi, Nat.mod_one]
  | succ m ih =>
    rw [itoby_succ, bytoi_cons, ih, pow_succ, mul_comm (256 ^ m) 256, Nat.mod_mul]

theorem itoby_four (v : Nat) :
    itoby v 4 = [v / 1 % 256, v / 256 % 256, v / 65536 % 256, v / 16777216 % 256] := rfl

theorem itoby4_all_blank_iff (v : Nat) (hv : v < 4294967296) :
    ((itoby v 4).all (fun x => x == Blank)) = true ↔ v = 4294967295 := by
  rw [itoby_four]
  simp [Blank, List.all_cons]
  omega

theorem itoby_take (v n k : Nat) (h : k ≤ n) : (itoby v n).take k = itoby v k := by
  unfold itoby
  rw [← List.map_take, List.take_range, min_eq_left h]


/-! ## Strided write fold lemmas -/

theorem stride_fold_out (f : Nat → List Nat) (p L n : Nat) (b : Buf) (a : Nat)
    (hf : ∀ k, k < n → (f k).length = L)
    (ha : a < p ∨ p + L * n ≤ a) :
    ((List.range n).foldl (fun res k => writeBytes res (p + L * k) (f k)) b) a = b a := by
  induction n with
  | zero => simp
  | succ m ih =>
    rw [List.range_succ, List.foldl_append, List.foldl_cons, List.foldl_nil]
    have hL : L * (m + 1) = L * m + L := by ring
    have ha2 : a < p ∨ p + L * m ≤ a := by
      rcases ha with h | h
      · exact Or.inl h
      · rw [hL] at h
        right
        omega
    rw [writeBytes_out]
    · exact ih (fun k hk => hf k (by omega)) ha2
    · rw [hf m (by omega)]
      rcases ha with h | h
      · left
        omega
      · rw [hL] at h
        right
        omega

theorem stride_fold_at (f : Nat → List Nat) (p L n : Nat) (b : Buf) (i j : Nat)
    (hf : ∀ k, k < n → (f k).length = L)
    (hi : i < n) (hj : j < L) :
    ((List.range n).foldl (fun res k => writeBytes res (p + L * k) (f k)) b)
      (p + L * i + j) = (f i).getD j 0 := by
  induction n with
  | zero => omega
  | succ m ih =>
    rw [List.range_succ, List.foldl_append, List.foldl_cons, List.foldl_nil]
    by_cases him : i = m
    · subst him
      rw [writeBytes_in]
      · congr 1
        omega
      · omega
      · rw [hf i (by omega)]
        omega
    · have him2 : i < m := by omega
      rw [writeBytes_out]
      · exact ih (fun k hk => hf k (by omega)) him2
      · rw [hf m (by omega)]
        have h1 : L * i + L ≤ L * m := by
          have h2 : L * (i + 1) ≤ L * m := Nat.mul_le_mul_left L (by omega)
          have h3 : L * (i + 1) = L * i + L := by ring
          omega
        omega

/-! ## Army codec lemmas -/

theorem armySlotBytes_len (IDS : String → Option Nat) (state state0 : Nat → ArmySlot)
    (bytes0 : Buf) (i : Nat) :
    (armySlotBytes IDS state state0 bytes0 i).1.length = 4
    ∧ (armySlotBytes IDS state state0 bytes0 i).2.length = 4 := by
  unfold armySlotBytes
  split_ifs <;> simp [readBytes_length, itoby_length]

theorem armyFold_out (IDS : String → Option Nat) (state state0 : Nat → ArmySlot)
    (bytes0 : Buf) (n : Nat) (b : Buf) (a : Nat)
    (hn : n ≤ 7) (ha : 56 ≤ a) :
    ((List.range n).foldl (armyStep IDS state state0 bytes0) b) a = b a := by
  induction n with
  | zero => simp
  | succ m ih =>
    rw [List.range_succ, List.foldl_append, List.foldl_cons, List.foldl_nil]
    unfold armyStep
    rw [writeBytes_out, writeBytes_out]
    · exact ih (by omega)
    · rw [(armySlotBytes_len IDS state state0 bytes0 m).1]
      simp only [armyTypesPos]
      omega
    · rw [(armySlotBytes_len IDS state state0 bytes0 m).2]
      simp only [armyCountsPos]
      omega

theorem armyFold_at_types (IDS : String → Option Nat) (state state0 : Nat → ArmySlot)
    (bytes0 : Buf) (n : Nat) (b : Buf) (i j : Nat)
    (hi : i < n) (hn : n ≤ 7) (hj : j < 4) :
    ((List.range n).foldl (armyStep IDS state state0 bytes0) b) (armyTypesPos + 4 * i + j)
      = (armySlotBytes IDS state state0 bytes0 i).1.getD j 0 := by
  induction n with
  | zero => omega
  | succ m ih =>
    rw [List.range_succ, List.foldl_append, List.foldl_cons, List.foldl_nil]
    unfold armyStep
    rw [writeBytes_out]
    · by_cases him : i = m
      · subst him
        rw [writeBytes_in]
        · congr 1
          simp only [armyTypesPos]
          omega
        · omega
        · rw [(armySlotBytes_len IDS state state0 bytes0 i).1]
          simp only [armyTypesPos]
          omega
      · rw [writeBytes_out]
        · exact ih (by omega) (by omega)
        · rw [(armySlotBytes_len IDS state state0 bytes0 m).1]
          simp only [armyTypesPos]
          omega
    · rw [(armySlotBytes_len IDS state state0 bytes0 m).2]
      simp only [armyTypesPos, armyCountsPos]
      omega

theorem armyFold_at_counts (IDS : String → Option Nat) (state state0 : Nat → ArmySlot)
    (bytes0 : Buf) (n : Nat) (b : Buf) (i j : Nat)
    (hi : i < n) (hn : n ≤ 7) (hj : j < 4) :
    ((List.range n).foldl (armyStep IDS state state0 bytes0) b) (armyCountsPos + 4 * i + j)
      = (armySlotBytes IDS state state0 bytes0 i).2.getD j 0 := by
  induction n with
  | zero => omega
  | succ m ih =>
    rw [List.range_succ, List.foldl_append, List.foldl_cons, List.foldl_nil]
    unfold armyStep
    by_cases him : i = m
    · subst him
      rw [writeBytes_in]
      · congr 1
        simp only [armyCountsPos]
        omega
      · omega
      · rw [(armySlotBytes_len IDS state state0 bytes0 i).2]
        simp only [armyCountsPos]
        omega
    · rw [writeBytes_out, writeBytes_out]
      · exact ih (by omega) (by omega)
      · rw [(armySlotBytes_len IDS state state0 bytes0 m).1]
        simp only [armyTypesPos, armyCountsPos]
        omega
      · rw [(armySlotBytes_len IDS state state0 bytes0 m).2]
        simp only [armyCountsPos]
        omega

theorem armySerialize_types (IDS : String → Option Nat) (state state0 : Nat → ArmySlot)
    (bytes bytes0 : Buf) (i : Nat) (hi : i < 7) :
    readBytes (armySerialize IDS state state0 bytes bytes0) (armyTypesPos + 4 * i) 4
      = (armySlotBytes IDS state state0 bytes0 i).1 := by
  apply readBytes_eq_of_pointwise
  · exact (armySlotBytes_len IDS state state0 bytes0 i).1
  · intro j hj
    exact armyFold_at_types IDS state state0 bytes0 7 bytes i j hi (by omega) hj

theorem armySerialize_counts (IDS : String → Option Nat) (state state0 : Nat → ArmySlot)
    (bytes bytes0 : Buf) (i : Nat) (hi : i < 7) :
    readBytes (armySerialize IDS state state0 bytes bytes0) (armyCountsPos + 4 * i) 4
      = (armySlotBytes IDS state state0 bytes0 i).2 := by
  apply readBytes_eq_of_pointwise
  · exact (armySlotBytes_len IDS state state0 bytes0 i).2
  · intro j hj
    exact armyFold_at_counts IDS state state0 bytes0 7 bytes i j hi (by omega) hj


/-- Claim C5: army encode writes, per slot: the 8 original bytes when the
slot is empty now and was empty at load; the 4-byte id and 4-byte count
when a catalog-resolvable name is present with truthy count; otherwise a
blank-sentinel type field and a zero-sentinel count field. -/
theorem claimC5_army_encode (IDS : String → Option Nat) (state state0 : Nat → ArmySlot)
    (bytes bytes0 : Buf) (i : Nat) (hi : i < 7) :
    (((nameTruthy (state i).name = false ∨ countTruthy (state i).count = false)
        ∧ nameTruthy (state0 i).name = false) →
      readBytes (armySerialize IDS state state0 bytes bytes0) (armyTypesPos + 4 * i) 4
          = readBytes bytes0 (armyTypesPos + 4 * i) 4
        ∧ readBytes (armySerialize IDS state state0 bytes bytes0) (armyCountsPos + 4 * i) 4
          = readBytes bytes0 (armyCountsPos + 4 * i) 4)
    ∧ (¬((nameTruthy (state i).name = false ∨ countTruthy (state i).count = false)
        ∧ nameTruthy (state0 i).name = false) →
      (∀ n v c, (state i).name = some n → IDS n = some v → (state i).count = some c →
        ¬c = 0 →
        readBytes (armySerialize IDS state state0 bytes bytes0) (armyTypesPos + 4 * i) 4
            = itoby v 4
          ∧ readBytes (armySerialize IDS state state0 bytes bytes0) (armyCountsPos + 4 * i) 4
            = itoby c 4)
      ∧ ((countTruthy (state i).count = false ∨ ((state i).name).bind IDS = none) →
        readBytes (armySerialize IDS state state0 bytes bytes0) (armyTypesPos + 4 * i) 4
            = List.replicate 4 Blank
          ∧ readBytes (armySerialize IDS state state0 bytes bytes0) (armyCountsPos + 4 * i) 4
            = List.replicate 4 Null)) := by
  have ht := armySerialize_types IDS state state0 bytes bytes0 i hi
  have hc := armySerialize_counts IDS state state0 bytes bytes0 i hi
  refine ⟨fun h1 => ?_, fun h1 => ⟨fun n v c hn hv hcnt hc0 => ?_, fun h2 => ?_⟩⟩
  · rw [ht, hc]
    unfold armySlotBytes
    rw [if_pos h1]
    exact ⟨rfl, rfl⟩
  · have hcount : countTruthy (state i).count = true := by
      rw [hcnt]
      simp [countTruthy, hc0]
    have hbind : ((state i).name).bind IDS = some v := by
      rw [hn]
      simpa using hv
    rw [ht, hc]
    unfold armySlotBytes
    rw [if_neg h1, if_pos ⟨hcount, by rw [hbind]; rfl⟩, hbind, hcnt]
    exact ⟨rfl, rfl⟩
  · have hfalse : ¬(countTruthy (state i).count = true
        ∧ (((state i).name).bind IDS).isSome = true) := by
      rcases h2 with h2 | h2
      · intro hx
        rw [h2] at hx
        exact absurd hx.1 (by simp)
      · intro hx
        rw [h2] at hx
        exact absurd hx.2 (by simp)
    rw [ht, hc]
    unfold armySlotBytes
    rw [if_neg h1, if_neg hfalse]
    exact ⟨rfl, rfl⟩

/-- The all-zero byte buffer, used by concrete witnesses. -/
def zeroBuf : Buf := fun _ => 0

/-- The empty name-to-id catalog, used by concrete witnesses. -/
def noneIDS : String → Option Nat := fun _ => none

/-- The everywhere-empty army state, used by concrete witnesses. -/
def emptyArmy : Nat → ArmySlot := fun _ => ⟨none, none⟩

/-- Witness for claim C5 at a concrete input. -/
theorem claimC5_army_encode_witness :
    (0 : Nat) < 7
    ∧ ((((nameTruthy (emptyArmy 0).name = false ∨ countTruthy (emptyArmy 0).count = false)
        ∧ nameTruthy (emptyArmy 0).name = false) →
      readBytes (armySerialize noneIDS emptyArmy emptyArmy zeroBuf zeroBuf)
          (armyTypesPos + 4 * 0) 4
          = readBytes zeroBuf (armyTypesPos + 4 * 0) 4
        ∧ readBytes (armySerialize noneIDS emptyArmy emptyArmy zeroBuf zeroBuf)
          (armyCountsPos + 4 * 0) 4
          = readBytes zeroBuf (armyCountsPos + 4 * 0) 4)
    ∧ (¬((nameTruthy (emptyArmy 0).name = false ∨ countTruthy (emptyArmy 0).count = false)
        ∧ nameTruthy (emptyArmy 0).name = false) →
      (∀ n v c, (emptyArmy 0).name = some n → noneIDS n = some v →
        (emptyArmy 0).count = some c → ¬c = 0 →
        readBytes (armySerialize noneIDS emptyArmy emptyArmy zeroBuf zeroBuf)
            (armyTypesPos + 4 * 0) 4
            = itoby v 4
          ∧ readBytes (armySerialize noneIDS emptyArmy emptyArmy zeroBuf zeroBuf)
            (armyCountsPos + 4 * 0) 4
            = itoby c 4)
      ∧ ((countTruthy (emptyArmy 0).count = false ∨ ((emptyArmy 0).name).bind noneIDS = none) →
        readBytes (armySerialize noneIDS emptyArmy emptyArmy zeroBuf zeroBuf)
            (armyTypesPos + 4 * 0) 4
            = List.replicate 4 Blank
          ∧ readBytes (armySerialize noneIDS emptyArmy emptyArmy zeroBuf zeroBuf)
            (armyCountsPos + 4 * 0) 4
            = List.replicate 4 Null))) :=
  ⟨by decide, claimC5_army_encode noneIDS emptyArmy emptyArmy zeroBuf zeroBuf 0 (by decide)⟩


theorem bytoi_lt (b : List Nat) (hb : ∀ x ∈ b, x < 256) : bytoi b < 256 ^ b.length := by
  induction b with
  | nil => simp [bytoi]
  | cons x t ih =>
    have hx : x < 256 := hb x (by simp)
    have ht := ih (fun y hy => hb y (by simp [hy]))
    rw [bytoi_cons, List.length_cons, pow_succ]
    have h2 : 0 < (256 : Nat) ^ t.length := Nat.pos_pow_of_pos _ (by omega)
    omega

theorem readBytes_lt (bytes : Buf) (h256 : ∀ a, bytes a < 256) (pos n : Nat) :
    ∀ x ∈ readBytes bytes pos n, x < 256 := by
  intro x hx
  unfold readBytes at hx
  rcases List.mem_map.mp hx with ⟨i, _, hi⟩
  exact hi ▸ h256 (pos + i)

/-- Claim C7: army decode yields the empty slot whenever the type id is
zero, the count is zero, or the id is absent from the catalog; count 0
with a creature id present decodes to empty, while count 4294967295 with
a valid creature decodes populated and round-trips through encode. -/
theorem claimC7_army_decode (NAMES : Nat → Option String) (IDS : String → Option Nat)
    (bytes : Buf) (i : Nat) (hi : i < 7) :
    ((bytoi (readBytes bytes (armyTypesPos + 4 * i) 4) = 0
        ∨ bytoi (readBytes bytes (armyCountsPos + 4 * i) 4) = 0
        ∨ NAMES (bytoi (readBytes bytes (armyTypesPos + 4 * i) 4)) = none) →
      armyParse NAMES bytes i = ⟨none, none⟩)
    ∧ (∀ n u, (∀ a, bytes a < 256) → NAMES u = some n → ¬n = "" → IDS n = some u →
        ¬u = 0 →
        bytoi (readBytes bytes (armyTypesPos + 4 * i) 4) = u →
        bytoi (readBytes bytes (armyCountsPos + 4 * i) 4) = 4294967295 →
        armyParse NAMES bytes i = ⟨some n, some 4294967295⟩
        ∧ armyParse NAMES
            (armySerialize IDS (armyParse NAMES bytes) (armyParse NAMES bytes) bytes bytes) i
          = ⟨some n, some 4294967295⟩) := by
  constructor
  · intro h
    simp only [armyParse]
    rcases h with h | h | h
    · rw [if_pos (Or.inl h)]
    · rw [if_pos (Or.inr (Or.inl h))]
    · rw [if_pos (Or.inr (Or.inr (by rw [h]; rfl)))]
  · intro n u h256 hnm hne hid hu htv hcv
    have hparse : armyParse NAMES bytes i = ⟨some n, some 4294967295⟩ := by
      simp only [armyParse]
      rw [if_neg]
      · rw [htv, hcv, hnm]
      · rw [htv, hcv, hnm]
        simp [nameTruthy, hne, hu]
    refine ⟨hparse, ?_⟩
    have hslot : armySlotBytes IDS (armyParse NAMES bytes) (armyParse NAMES bytes) bytes i
        = (itoby u 4, itoby 4294967295 4) := by
      unfold armySlotBytes
      rw [hparse]
      rw [if_neg, if_pos]
      · simp [hid]
      · constructor
        · simp [countTruthy]
        · rw [show (some n).bind IDS = some u by simpa using hid]
          rfl
      · simp [nameTruthy, countTruthy, hne]
    have hu32 : u < 4294967296 := by
      have h1 := bytoi_lt (readBytes bytes (armyTypesPos + 4 * i) 4)
        (readBytes_lt bytes h256 _ _)
      rw [htv, readBytes_length] at h1
      exact h1
    have ht2 := armySerialize_types IDS (armyParse NAMES bytes) (armyParse NAMES bytes)
      bytes bytes i hi
    have hc2 := armySerialize_counts IDS (armyParse NAMES bytes) (armyParse NAMES bytes)
      bytes bytes i hi
    rw [hslot] at ht2 hc2
    simp only [armyParse]
    rw [ht2, hc2, bytoi_itoby, bytoi_itoby]
    have hp4 : (256 : Nat) ^ 4 = 4294967296 := by norm_num
    have hmod : u % 256 ^ 4 = u := by
      rw [hp4]
      exact Nat.mod_eq_of_lt hu32
    have hmodc : (4294967295 : Nat) % 256 ^ 4 = 4294967295 := by
      rw [hp4]
    rw [hmod, hmodc]
    rw [if_neg]
    · rw [hnm]
    · rw [hnm]
      simp [nameTruthy, hne, hu]


/-- The empty creature id-to-name catalog, used by concrete witnesses. -/
def noneNAMES : Nat → Option String := fun _ => none

/-- Witness for claim C7 at a concrete input. -/
theorem claimC7_army_decode_witness :
    (0 : Nat) < 7
    ∧ (((bytoi (readBytes zeroBuf (armyTypesPos + 4 * 0) 4) = 0
        ∨ bytoi (readBytes zeroBuf (armyCountsPos + 4 * 0) 4) = 0
        ∨ noneNAMES (bytoi (readBytes zeroBuf (armyTypesPos + 4 * 0) 4)) = none) →
      armyParse noneNAMES zeroBuf 0 = ⟨none, none⟩)
    ∧ (∀ n u, (∀ a, zeroBuf a < 256) → noneNAMES u = some n → ¬n = "" →
        noneIDS n = some u → ¬u = 0 →
        bytoi (readBytes zeroBuf (armyTypesPos + 4 * 0) 4) = u →
        bytoi (readBytes zeroBuf (armyCountsPos + 4 * 0) 4) = 4294967295 →
        armyParse noneNAMES zeroBuf 0 = ⟨some n, some 4294967295⟩
        ∧ armyParse noneNAMES
            (armySerialize noneIDS (armyParse noneNAMES zeroBuf)
              (armyParse noneNAMES zeroBuf) zeroBuf zeroBuf) 0
          = ⟨some n, some 4294967295⟩)) :=
  ⟨by decide, claimC7_army_decode noneNAMES noneIDS zeroBuf 0 (by decide)⟩

/-! ## Claim C6: round-trip byte idempotence -/

theorem armySlotBytes_parse (NAMES : Nat → Option String) (IDS : String → Option Nat)
    (bytes : Buf) (h256 : ∀ a, bytes a < 256)
    (hinv : ∀ u n, NAMES u = some n → IDS n = some u) (i : Nat) :
    armySlotBytes IDS (armyParse NAMES bytes) (armyParse NAMES bytes) bytes i
      = (readBytes bytes (armyTypesPos + 4 * i) 4,
         readBytes bytes (armyCountsPos + 4 * i) 4) := by
  by_cases hcond : (bytoi (readBytes bytes (armyTypesPos + 4 * i) 4) = 0
      ∨ bytoi (readBytes bytes (armyCountsPos + 4 * i) 4) = 0
      ∨ nameTruthy (NAMES (bytoi (readBytes bytes (armyTypesPos + 4 * i) 4))) = false)
  · have hp : armyParse NAMES bytes i = ⟨none, none⟩ := by
      simp only [armyParse]
      rw [if_pos hcond]
    unfold armySlotBytes
    rw [hp]
    rw [if_pos (by constructor
                   · left
                     rfl
                   · rfl)]
  · push_neg at hcond
    obtain ⟨hu0, hc0, hnt⟩ := hcond
    have hp : armyParse NAMES bytes i
        = ⟨NAMES (bytoi (readBytes bytes (armyTypesPos + 4 * i) 4)),
           some (bytoi (readBytes bytes (armyCountsPos + 4 * i) 4))⟩ := by
      simp only [armyParse]
      rw [if_neg]
      intro h
      rcases h with h | h | h
      · exact hu0 h
      · exact hc0 h
      · exact hnt h
    have hnt2 : nameTruthy (NAMES (bytoi (readBytes bytes (armyTypesPos + 4 * i) 4)))
        = true := by
      cases h : nameTruthy (NAMES (bytoi (readBytes bytes (armyTypesPos + 4 * i) 4)))
      · exact absurd h hnt
      · rfl
    obtain ⟨n, hn⟩ : ∃ n, NAMES (bytoi (readBytes bytes (armyTypesPos + 4 * i) 4))
        = some n := by
      cases h : NAMES (bytoi (readBytes bytes (armyTypesPos + 4 * i) 4)) with
      | none => rw [h] at hnt2; exact absurd hnt2 (by simp [nameTruthy])
      | some x => exact ⟨x, rfl⟩
    have hid : IDS n = some (bytoi (readBytes bytes (armyTypesPos + 4 * i) 4)) :=
      hinv _ _ hn
    unfold armySlotBytes
    rw [hp]
    rw [if_neg, if_pos]
    · have e1 : itoby (bytoi (readBytes bytes (armyTypesPos + 4 * i) 4)) 4
          = readBytes bytes (armyTypesPos + 4 * i) 4 := by
        have h := itoby_bytoi (readBytes bytes (armyTypesPos + 4 * i) 4)
          (readBytes_lt bytes h256 _ _)
        rwa [readBytes_length] at h
      have e2 : itoby (bytoi (readBytes bytes (armyCountsPos + 4 * i) 4)) 4
          = readBytes bytes (armyCountsPos + 4 * i) 4 := by
        have h := itoby_bytoi (readBytes bytes (armyCountsPos + 4 * i) 4)
          (readBytes_lt bytes h256 _ _)
        rwa [readBytes_length] at h
      simp only [hn, Option.some_bind, hid, Option.getD_some]
      rw [e1, e2]
    · constructor
      · simp [countTruthy, hc0]
      · simp only [hn, Option.some_bind, hid]
        rfl
    · rw [hn] at hnt2
      simp [hn, hnt2, countTruthy, hc0]


/-- Claim C6 as amended: for the army section, encoding immediately after
decoding with no edits reproduces the buffer byte-exactly everywhere,
covering both empty encodings (empty slots copy their original bytes
verbatim); given byte-valid buffers and an id-name-id coherent catalog. -/
theorem claimC6_amended_roundtrip (NAMES : Nat → Option String) (IDS : String → Option Nat)
    (bytes : Buf) (h256 : ∀ a, bytes a < 256)
    (hinv : ∀ u n, NAMES u = some n → IDS n = some u) :
    ∀ a, armySerialize IDS (armyParse NAMES bytes) (armyParse NAMES bytes) bytes bytes a
      = bytes a := by
  intro a
  unfold armySerialize
  by_cases ha : 56 ≤ a
  · exact armyFold_out IDS (armyParse NAMES bytes) (armyParse NAMES bytes) bytes 7 bytes a
      (by omega) ha
  · by_cases hta : a < 28
    · have hdecomp : a = armyTypesPos + 4 * (a / 4) + a % 4 := by
        simp only [armyTypesPos]
        omega
      rw [hdecomp]
      rw [armyFold_at_types IDS (armyParse NAMES bytes) (armyParse NAMES bytes) bytes 7 bytes
        (a / 4) (a % 4) (by omega) (by omega) (by omega)]
      rw [armySlotBytes_parse NAMES IDS bytes h256 hinv]
      rw [readBytes_getD bytes (armyTypesPos + 4 * (a / 4)) 4 (a % 4) (by omega)]
    · have hdecomp : a = armyCountsPos + 4 * ((a - 28) / 4) + (a - 28) % 4 := by
        simp only [armyCountsPos]
        omega
      rw [hdecomp]
      rw [armyFold_at_counts IDS (armyParse NAMES bytes) (armyParse NAMES bytes) bytes 7 bytes
        ((a - 28) / 4) ((a - 28) % 4) (by omega) (by omega) (by omega)]
      rw [armySlotBytes_parse NAMES IDS bytes h256 hinv]
      rw [readBytes_getD bytes (armyCountsPos + 4 * ((a - 28) / 4)) 4 ((a - 28) % 4) (by omega)]

/-- Witness for the amended claim C6 at a concrete input. -/
theorem claimC6_amended_roundtrip_witness :
    (∀ a, zeroBuf a < 256)
    ∧ (∀ u n, noneNAMES u = some n → noneIDS n = some u)
    ∧ (∀ a, armySerialize noneIDS (armyParse noneNAMES zeroBuf) (armyParse noneNAMES zeroBuf)
        zeroBuf zeroBuf a = zeroBuf a) :=
  ⟨fun a => by norm_num [zeroBuf], fun u n h => by simp [noneNAMES] at h,
   claimC6_amended_roundtrip noneNAMES noneIDS zeroBuf (fun a => by norm_num [zeroBuf])
     (fun u n h => by simp [noneNAMES] at h)⟩

/-- Byte buffer for the claim C6 counterexample: artifact slot helm and
inventory slot 0 both hold catalog id 1 with non-blank junk tail bytes. -/
def c6buf : Buf := fun a =>
  if a = 100 ∨ a = 300 then 1
  else if (104 ≤ a ∧ a < 108) ∨ (304 ≤ a ∧ a < 308) then 7 else 0

/-- Artifact id-to-name catalog of the claim C6 counterexample. -/
def c6NAMES : Nat → Option String := fun u => if u = 1 then some "A" else none

/-- Artifact name-to-id catalog of the claim C6 counterexample. -/
def c6IDS : String → Option Nat := fun n => if n = "A" then some 1 else none

/-- Counterexample to claim C6: encoding immediately after decoding does
not reproduce the byte buffer for the worn-artifacts and inventory
sections; a decodable slot with junk tail bytes is re-encoded with a
blank-sentinel tail. -/
theorem claimC6_counterexample :
    ¬(inventorySerialize c6IDS [] (inventoryParse c6NAMES 2 c6buf)
        (inventoryParse c6NAMES 2 c6buf) c6buf c6buf 304 = c6buf 304)
    ∧ ¬(artifactsSerialize (fun _ => []) c6IDS (artifactsParse c6NAMES 2 c6buf) c6buf 104
        = c6buf 104) := by
  constructor
  · decide
  · decide


/-! ## Artifact codec lemmas -/

theorem artSlotBytes_len (aIDS : String → Option Nat) (st : WornState) (k : Nat) :
    (artSlotBytes aIDS st k).length = 8 := by
  unfold artSlotBytes
  split <;> simp [itoby_length]

theorem incReserved_apply (res : Buf) (cats : List String) (a : Nat) :
    incReserved res cats a
      = res a + (cats.filter (fun c => reservedPos c == a)).length := by
  unfold incReserved
  induction cats generalizing res with
  | nil => simp
  | cons c rest ih =>
    rw [List.foldl_cons, ih, List.filter_cons]
    by_cases h : reservedPos c = a
    · simp only [h, beq_self_eq_true, if_pos rfl, if_true, List.length_cons]
      omega
    · have h2 : ¬(a = reservedPos c) := fun hh => h hh.symm
      simp [h, h2]

theorem reservedPos_ge (c : String) : 220 ≤ reservedPos c := by
  unfold reservedPos reservedBasePos
  omega

theorem reservedPos_le (c : String) : reservedPos c ≤ 229 := by
  unfold reservedPos reservedBasePos reservedIdx
  split <;> omega

theorem reservedPos_le_of_mem (c : String) (hc : c ∈ reservedCats) :
    reservedPos c ≤ 228 := by
  fin_cases hc <;> decide

theorem incReserved_out (res : Buf) (cats : List String) (a : Nat) (ha : a < 220) :
    incReserved res cats a = res a := by
  rw [incReserved_apply]
  have hnil : (cats.filter (fun c => reservedPos c == a)) = [] := by
    apply List.filter_eq_nil_iff.mpr
    intro c _
    have := reservedPos_ge c
    simp only [beq_iff_eq]
    omega
  rw [hnil]
  simp

theorem incReserved_out_high (res : Buf) (cats : List String) (a : Nat)
    (hvalid : ∀ c ∈ cats, c ∈ reservedCats) (ha : 229 ≤ a) :
    incReserved res cats a = res a := by
  rw [incReserved_apply]
  have hnil : (cats.filter (fun c => reservedPos c == a)) = [] := by
    apply List.filter_eq_nil_iff.mpr
    intro c hcc
    have := reservedPos_le_of_mem c (hvalid c hcc)
    simp only [beq_iff_eq]
    omega
  rw [hnil]
  simp

theorem artFold_at (SLOTS : String → List String) (aIDS : String → Option Nat)
    (st : WornState) (n : Nat) (b : Buf) (k j : Nat)
    (hk : k < n) (hn : n ≤ 14) (hj : j < 8) :
    ((List.range n).foldl (artStep SLOTS aIDS st) b) (artifactSlotPos k + j)
      = (artSlotBytes aIDS st k).getD j 0 := by
  induction n with
  | zero => omega
  | succ m ih =>
    rw [List.range_succ, List.foldl_append, List.foldl_cons, List.foldl_nil]
    unfold artStep
    rw [incReserved_out]
    · by_cases hkm : k = m
      · subst hkm
        rw [writeBytes_in]
        · congr 1
          simp only [artifactSlotPos]
          omega
        · simp only [artifactSlotPos]
          omega
        · rw [artSlotBytes_len]
          simp only [artifactSlotPos]
          omega
      · rw [writeBytes_out]
        · exact ih (by omega) (by omega)
        · rw [artSlotBytes_len]
          simp only [artifactSlotPos]
          omega
    · simp only [artifactSlotPos]
      omega

theorem artFold_reserved (SLOTS : String → List String) (aIDS : String → Option Nat)
    (st : WornState) (n : Nat) (b : Buf) (a : Nat)
    (hn : n ≤ 14) (ha : 220 ≤ a) :
    ((List.range n).foldl (artStep SLOTS aIDS st) b) a
      = b a + ((List.range n).map (fun k =>
          ((artTail SLOTS st k).filter (fun c => reservedPos c == a)).length)).sum := by
  induction n with
  | zero => simp
  | succ m ih =>
    rw [List.range_succ, List.foldl_append, List.foldl_cons, List.foldl_nil]
    have hstep : artStep SLOTS aIDS st (List.foldl (artStep SLOTS aIDS st) b (List.range m)) m
        = incReserved (writeBytes (List.foldl (artStep SLOTS aIDS st) b (List.range m))
            (artifactSlotPos m) (artSlotBytes aIDS st m)) (artTail SLOTS st m) := rfl
    rw [hstep, incReserved_apply]
    have hw : writeBytes (List.foldl (artStep SLOTS aIDS st) b (List.range m))
        (artifactSlotPos m) (artSlotBytes aIDS st m) a
        = (List.foldl (artStep SLOTS aIDS st) b (List.range m)) a := by
      apply writeBytes_out
      rw [artSlotBytes_len]
      right
      simp only [artifactSlotPos]
      omega
    rw [hw, ih (by omega)]
    rw [List.map_append, List.sum_append]
    simp only [List.map_cons, List.map_nil, List.sum_cons, List.sum_nil]
    omega

theorem artFold_out (SLOTS : String → List String) (aIDS : String → Option Nat)
    (st : WornState)
    (hvalid : ∀ k, k < 14 → ∀ c ∈ artTail SLOTS st k, c ∈ reservedCats)
    (n : Nat) (b : Buf) (a : Nat) (hn : n ≤ 14)
    (ha1 : ¬(100 ≤ a ∧ a < 212)) (ha2 : ¬(220 ≤ a ∧ a < 229)) :
    ((List.range n).foldl (artStep SLOTS aIDS st) b) a = b a := by
  induction n with
  | zero => simp
  | succ m ih =>
    rw [List.range_succ, List.foldl_append, List.foldl_cons, List.foldl_nil]
    unfold artStep
    have hinc : ∀ r : Buf, incReserved r (artTail SLOTS st m) a = r a := by
      intro r
      rcases (show a < 220 ∨ 229 ≤ a by omega) with h | h
      · exact incReserved_out r _ a h
      · exact incReserved_out_high r _ a (hvalid m (by omega)) h
    rw [hinc, writeBytes_out]
    · exact ih (by omega)
    · rw [artSlotBytes_len]
      simp only [artifactSlotPos]
      omega

theorem reservedPos_inj_valid (x c : String) (hx : x ∈ reservedCats)
    (hc : c ∈ reservedCats) (h : reservedPos x = reservedPos c) : x = c := by
  fin_cases hx <;> fin_cases hc <;> first | rfl | (exfalso; revert h; decide)

theorem filter_reservedPos_count (l : List String) (c : String) (hc : c ∈ reservedCats)
    (hl : ∀ x ∈ l, x ∈ reservedCats) :
    (l.filter (fun x => reservedPos x == reservedPos c)).length = l.count c := by
  induction l with
  | nil => simp
  | cons x rest ih =>
    have ihr := ih (fun y hy => hl y (by simp [hy]))
    rw [List.filter_cons]
    by_cases hxc : x = c
    · have hb : (reservedPos x == reservedPos c) = true := by simp [hxc]
      rw [hb, if_pos rfl, List.length_cons, ihr]
      simp [List.count_cons, hxc]
    · have hb : (reservedPos x == reservedPos c) = false := by
        simp only [beq_eq_false_iff_ne, ne_eq]
        intro hh
        exact hxc (reservedPos_inj_valid x c (hl x (by simp)) hc hh)
      rw [hb, if_neg (by decide), ihr]
      simp [List.count_cons, hxc]


theorem replicate_getD_zero (n i : Nat) : (List.replicate n (0 : Nat)).getD i 0 = 0 := by
  induction n generalizing i with
  | zero => simp
  | succ m ih =>
    cases i with
    | zero => simp [List.replicate]
    | succ j => simp [List.replicate, List.getD_cons_succ, ih]

/-- Claim C8: artifact encode zeroes the reserved-counter region without
diffing, writes 8 blank bytes per empty slot and the 4-byte id plus 4
blank bytes per donned slot (narrow form, also for Spell Scroll), and
leaves each category reserved counter equal to the number of occurrences
of that category beyond the primary in donned artifacts occupied-category
lists. -/
theorem claimC8_artifact_encode (SLOTS : String → List String) (aIDS : String → Option Nat)
    (st : WornState) (bytes : Buf)
    (hvalid : ∀ k, k < 14 → ∀ c ∈ artTail SLOTS st k, c ∈ reservedCats) :
    (∀ k, k < 14 →
      readBytes (artifactsSerialize SLOTS aIDS st bytes) (artifactSlotPos k) 8
        = (match (wGet st (slotAt k).name).bind aIDS with
           | none => List.replicate 8 Blank
           | some v => itoby v 4 ++ List.replicate 4 Blank))
    ∧ (∀ c, c ∈ reservedCats →
      artifactsSerialize SLOTS aIDS st bytes (reservedPos c)
        = ((List.range 14).map (fun k => (artTail SLOTS st k).count c)).sum) := by
  constructor
  · intro k hk
    have h := readBytes_eq_of_pointwise (artifactsSerialize SLOTS aIDS st bytes)
      (artifactSlotPos k) 8 (artSlotBytes aIDS st k) (artSlotBytes_len aIDS st k)
      (fun j hj => artFold_at SLOTS aIDS st 14 _ k j hk (le_refl 14) hj)
    rw [h]
    rfl
  · intro c hc
    have hge : 220 ≤ reservedPos c := reservedPos_ge c
    have hle : reservedPos c ≤ 228 := reservedPos_le_of_mem c hc
    have h := artFold_reserved SLOTS aIDS st 14
      (writeBytes bytes reservedBasePos (List.replicate 9 0)) (reservedPos c)
      (le_refl 14) hge
    have hbase : writeBytes bytes reservedBasePos (List.replicate 9 0) (reservedPos c)
        = 0 := by
      rw [writeBytes_in]
      · exact replicate_getD_zero 9 _
      · unfold reservedBasePos
        omega
      · simp only [List.length_replicate]
        unfold reservedBasePos
        omega
    have hsum : (List.range 14).map (fun k =>
          ((artTail SLOTS st k).filter (fun c2 => reservedPos c2 == reservedPos c)).length)
        = (List.range 14).map (fun k => (artTail SLOTS st k).count c) := by
      apply List.map_congr_left
      intro k hk
      exact filter_reservedPos_count _ c hc (hvalid k (List.mem_range.mp hk))
    show (List.range 14).foldl (artStep SLOTS aIDS st)
      (writeBytes bytes reservedBasePos (List.replicate 9 0)) (reservedPos c) = _
    rw [h, hbase, hsum]
    simp

/-- Witness for claim C8 at a concrete input. -/
theorem claimC8_artifact_encode_witness :
    (∀ k, k < 14 → ∀ c ∈ artTail (fun _ => []) ([] : WornState) k, c ∈ reservedCats)
    ∧ ((∀ k, k < 14 →
        readBytes (artifactsSerialize (fun _ => []) noneIDS ([] : WornState) zeroBuf)
            (artifactSlotPos k) 8
          = (match (wGet ([] : WornState) (slotAt k).name).bind noneIDS with
             | none => List.replicate 8 Blank
             | some v => itoby v 4 ++ List.replicate 4 Blank))
      ∧ (∀ c, c ∈ reservedCats →
        artifactsSerialize (fun _ => []) noneIDS ([] : WornState) zeroBuf (reservedPos c)
          = ((List.range 14).map (fun k =>
              (artTail (fun _ => []) ([] : WornState) k).count c)).sum)) :=
  ⟨fun k hk c hcc => by simp [artTail, wGet] at hcc,
   claimC8_artifact_encode (fun _ => []) noneIDS [] zeroBuf
     (fun k hk c hcc => by simp [artTail, wGet] at hcc)⟩


/-! ## Inventory codec lemmas -/

theorem invSlotBytes_len (IDS : String → Option Nat) (scrolls : List String)
    (state state0 : Nat → Option String) (bytes0 : Buf) (i : Nat) :
    (invSlotBytes IDS scrolls state state0 bytes0 i).length = 8 := by
  unfold invSlotBytes
  split_ifs <;> simp [itoby_length, readBytes_length]

theorem inventorySerialize_slot (IDS : String → Option Nat) (scrolls : List String)
    (state state0 : Nat → Option String) (bytes bytes0 : Buf) (i : Nat) (hi : i < 64) :
    readBytes (inventorySerialize IDS scrolls state state0 bytes bytes0)
        (inventoryPos + 8 * i) 8
      = invSlotBytes IDS scrolls state state0 bytes0 i := by
  apply readBytes_eq_of_pointwise _ _ _ _ (invSlotBytes_len IDS scrolls state state0 bytes0 i)
  intro j hj
  exact stride_fold_at (invSlotBytes IDS scrolls state state0 bytes0) inventoryPos 8 64
    bytes i j (fun k _ => invSlotBytes_len IDS scrolls state state0 bytes0 k) hi hj

theorem readBytes_take (b : Buf) (pos n k : Nat) (l : List Nat)
    (h : readBytes b pos n = l) (hk : k ≤ n) : readBytes b pos k = l.take k := by
  subst h
  unfold readBytes
  rw [← List.map_take, List.take_range, min_eq_left hk]

/-- Claim C9: an inventory slot holding a scroll-category artifact is
encoded and decoded through the 8-byte wide identity; any other resolvable
artifact is encoded as 4-byte id plus 4 blank bytes and decoded from the
4-byte id alone; a slot empty at load and now keeps its original 8 bytes;
a newly cleared slot is written as 4 blank plus 4 zero sentinel bytes. -/
theorem claimC9_inventory_paths (IDS : String → Option Nat) (aNAMES : Nat → Option String)
    (scrolls : List String) (scrollId : Nat)
    (state state0 : Nat → Option String) (bytes bytes0 : Buf) (i : Nat) (hi : i < 64) :
    (∀ n, state i = some n → scrolls.contains n = true → IDS n = some scrollId →
      scrollId < 4294967296 → ¬scrollId = 4294967295 → aNAMES scrollId = some n →
      readBytes (inventorySerialize IDS scrolls state state0 bytes bytes0)
          (inventoryPos + 8 * i) 8
          = itoby scrollId 8
        ∧ inventoryParse aNAMES scrollId
            (inventorySerialize IDS scrolls state state0 bytes bytes0) i
          = some n)
    ∧ (∀ n v, state i = some n → scrolls.contains n = false → IDS n = some v →
        ¬v = 0 → v < 4294967296 → ¬v = 4294967295 → ¬v = scrollId →
      readBytes (inventorySerialize IDS scrolls state state0 bytes bytes0)
          (inventoryPos + 8 * i) 8
          = itoby v 4 ++ List.replicate 4 Blank
        ∧ inventoryParse aNAMES scrollId
            (inventorySerialize IDS scrolls state state0 bytes bytes0) i
          = aNAMES v)
    ∧ (state i = none → state0 i = none →
      readBytes (inventorySerialize IDS scrolls state state0 bytes bytes0)
          (inventoryPos + 8 * i) 8
        = readBytes bytes0 (inventoryPos + 8 * i) 8)
    ∧ (∀ m, state i = none → state0 i = some m →
      readBytes (inventorySerialize IDS scrolls state state0 bytes bytes0)
          (inventoryPos + 8 * i) 8
        = List.replicate 4 Blank ++ List.replicate 4 Null) := by
  have hslot := inventorySerialize_slot IDS scrolls state state0 bytes bytes0 i hi
  refine ⟨?_, ?_, ?_, ?_⟩
  · intro n hn hscr hid hlt hne hnm
    have hbytes : invSlotBytes IDS scrolls state state0 bytes0 i = itoby scrollId 8 := by
      have hmem : n ∈ scrolls := by simpa using hscr
      unfold invSlotBytes
      rw [hn]
      simp [hmem, hid]
    have hread8 : readBytes (inventorySerialize IDS scrolls state state0 bytes bytes0)
        (inventoryPos + 8 * i) 8 = itoby scrollId 8 := by rw [hslot, hbytes]
    refine ⟨hread8, ?_⟩
    have hread4 : readBytes (inventorySerialize IDS scrolls state state0 bytes bytes0)
        (inventoryPos + 8 * i) 4 = itoby scrollId 4 := by
      rw [readBytes_take _ _ 8 4 _ hread8 (by omega), itoby_take _ _ _ (by omega)]
    unfold inventoryParse parseItem
    rw [hread4, hread8]
    have hv4 : bytoi (itoby scrollId 4) = scrollId := by
      rw [bytoi_itoby]
      have hp : (256 : Nat) ^ 4 = 4294967296 := by norm_num
      rw [hp]
      exact Nat.mod_eq_of_lt hlt
    have hblank : ((itoby scrollId 4).all (fun x => x == Blank)) = false := by
      cases hall : ((itoby scrollId 4).all (fun x => x == Blank)) with
      | false => rfl
      | true => exact absurd ((itoby4_all_blank_iff scrollId hlt).mp hall) hne
    rw [hblank]
    simp only [Bool.false_eq_true, if_false]
    rw [hv4, if_pos rfl]
    have hv8 : bytoi (itoby scrollId 8) = scrollId := by
      rw [bytoi_itoby]
      have hp : (256 : Nat) ^ 8 = 18446744073709551616 := by norm_num
      rw [hp]
      exact Nat.mod_eq_of_lt (by omega)
    rw [hv8]
    simp [hnm]
  · intro n v hn hscr hid hv0 hlt hne hnescroll
    have hbytes : invSlotBytes IDS scrolls state state0 bytes0 i
        = itoby v 4 ++ List.replicate 4 Blank := by
      have hmem : ¬n ∈ scrolls := by simpa using hscr
      unfold invSlotBytes
      rw [hn]
      simp [hmem, hid, hv0]
    have hread8 : readBytes (inventorySerialize IDS scrolls state state0 bytes bytes0)
        (inventoryPos + 8 * i) 8 = itoby v 4 ++ List.replicate 4 Blank := by
      rw [hslot, hbytes]
    refine ⟨hread8, ?_⟩
    have hread4 : readBytes (inventorySerialize IDS scrolls state state0 bytes bytes0)
        (inventoryPos + 8 * i) 4 = itoby v 4 := by
      rw [readBytes_take _ _ 8 4 _ hread8 (by omega)]
      rw [show (4 : Nat) = (itoby v 4).length from (itoby_length v 4).symm]
      exact List.take_left _ _
    unfold inventoryParse parseItem
    rw [hread4]
    have hv4 : bytoi (itoby v 4) = v := by
      rw [bytoi_itoby]
      have hp : (256 : Nat) ^ 4 = 4294967296 := by norm_num
      rw [hp]
      exact Nat.mod_eq_of_lt hlt
    have hblank : ((itoby v 4).all (fun x => x == Blank)) = false := by
      cases hall : ((itoby v 4).all (fun x => x == Blank)) with
      | false => rfl
      | true => exact absurd ((itoby4_all_blank_iff v hlt).mp hall) hne
    rw [hblank]
    simp only [Bool.false_eq_true, if_false]
    rw [hv4, if_neg hnescroll]
    rfl
  · intro hn hn0
    rw [hslot]
    unfold invSlotBytes
    rw [hn]
    simp [hn0]
  · intro m hn hn0
    rw [hslot]
    unfold invSlotBytes
    rw [hn]
    simp [hn0]


/-- Scroll list for the claim C9 witness. -/
def invScrolls : List String := ["S"]

/-- Name-to-id catalog for the claim C9 witness. -/
def invIDS : String → Option Nat := fun n => if n = "S" then some 3 else none

/-- Id-to-name catalog for the claim C9 witness. -/
def invNAMES : Nat → Option String := fun u => if u = 3 then some "S" else none

/-- Inventory state for the claim C9 witness: a scroll in slot 0. -/
def invState : Nat → Option String := fun i => if i = 0 then some "S" else none

/-- Witness for claim C9 at a concrete input: the scroll path at slot 0. -/
theorem claimC9_inventory_paths_witness :
    readBytes (inventorySerialize invIDS invScrolls invState invState zeroBuf zeroBuf)
        (inventoryPos + 8 * 0) 8
      = itoby 3 8
    ∧ inventoryParse invNAMES 3
        (inventorySerialize invIDS invScrolls invState invState zeroBuf zeroBuf) 0
      = some "S" :=
  (claimC9_inventory_paths invIDS invNAMES invScrolls 3 invState invState zeroBuf zeroBuf 0
      (by decide)).1 "S" (by decide) (by decide) (by decide) (by decide) (by decide)
      (by decide)

/-- Claim C10: each encoder leaves every byte outside its own byte ranges
equal to the corresponding byte of the input current buffer. -/
theorem claimC10_frame (IDS : String → Option Nat) (state state0 : Nat → ArmySlot)
    (SLOTS : String → List String) (aIDS : String → Option Nat) (wst : WornState)
    (iIDS : String → Option Nat) (scrolls : List String)
    (istate istate0 : Nat → Option String) (bytes bytes0 : Buf) (a : Nat) :
    (¬(armyTypesPos ≤ a ∧ a < armyTypesPos + 28)
      → ¬(armyCountsPos ≤ a ∧ a < armyCountsPos + 28)
      → armySerialize IDS state state0 bytes bytes0 a = bytes a)
    ∧ ((∀ k, k < 14 → ∀ c ∈ artTail SLOTS wst k, c ∈ reservedCats)
      → (∀ k, k < 14 → ¬(artifactSlotPos k ≤ a ∧ a < artifactSlotPos k + 8))
      → ¬(reservedBasePos ≤ a ∧ a < reservedBasePos + 9)
      → artifactsSerialize SLOTS aIDS wst bytes a = bytes a)
    ∧ (¬(inventoryPos ≤ a ∧ a < inventoryPos + 512)
      → inventorySerialize iIDS scrolls istate istate0 bytes bytes0 a = bytes a) := by
  refine ⟨fun h1 h2 => ?_, fun hvalid hs hr => ?_, fun h => ?_⟩
  · simp only [armyTypesPos, armyCountsPos] at h1 h2
    unfold armySerialize
    exact armyFold_out IDS state state0 bytes0 7 bytes a (by omega) (by omega)
  · have hs2 : ¬(100 ≤ a ∧ a < 212) := by
      intro hin
      have hk := hs ((a - 100) / 8) (by omega)
      simp only [artifactSlotPos] at hk
      omega
    have hr2 : ¬(220 ≤ a ∧ a < 229) := by
      simpa only [reservedBasePos] using hr
    unfold artifactsSerialize
    rw [artFold_out SLOTS aIDS wst hvalid 14 _ a (le_refl 14) hs2 hr2]
    apply writeBytes_out
    simp only [List.length_replicate, reservedBasePos]
    omega
  · have h2 : a < inventoryPos ∨ inventoryPos + 8 * 64 ≤ a := by
      simp only [inventoryPos] at h
      simp only [inventoryPos]
      omega
    unfold inventorySerialize
    exact stride_fold_out (invSlotBytes iIDS scrolls istate istate0 bytes0) inventoryPos 8 64
      bytes a (fun k _ => invSlotBytes_len iIDS scrolls istate istate0 bytes0 k) h2

/-- Witness for claim C10 at a concrete input, outside every range. -/
theorem claimC10_frame_witness :
    armySerialize noneIDS emptyArmy emptyArmy zeroBuf zeroBuf 900 = zeroBuf 900
    ∧ artifactsSerialize (fun _ => []) noneIDS ([] : WornState) zeroBuf 900 = zeroBuf 900
    ∧ inventorySerialize noneIDS [] (fun _ => none) (fun _ => none) zeroBuf zeroBuf 900
      = zeroBuf 900 := by
  have h := claimC10_frame noneIDS emptyArmy emptyArmy (fun _ => []) noneIDS []
    noneIDS [] (fun _ => none) (fun _ => none) zeroBuf zeroBuf 900
  exact ⟨h.1 (by decide) (by decide),
    h.2.1 (fun k hk c hcc => by simp [artTail, wGet] at hcc)
      (fun k hk => by simp only [artifactSlotPos]; omega) (by decide),
    h.2.2 (by decide)⟩

end H3sed
